import Mathlib

/-!
Verification of the caching / dispatch core of VRCYouTubePatcher.

The Go sources are shallowly embedded: the cache manager
(`internal/cache/manager.go`), the download queue
(`internal/downloader/downloader.go`), the HTTP dispatcher's pure request
logic (`internal/api/handlers.go`) and the stub resolver
(`cmd/ytdlp-stub/main.go`) become pure Lean functions.  Filesystem and
network effects are passed in explicitly: a `stat` result is an
`Option (Int × Nat)`, a directory listing is a `List DirEntry`, a file
removal outcome is a `RemoveResult`, an HTTP exchange is an `HTTPOutcome`.
Wall-clock instants are modelled as `Nat` ticks.  Go's `map[string]T` is
represented as an association list with unique keys; the embedded code
never depends on its iteration order (lookups are by key and eviction
sorts explicitly; ties in `last_access`, whose order Go's `sort.Slice`
leaves unspecified, are broken by id in the model and none of the proved
statements depends on that tie-break).
-/

/-! ### Character-list string helpers

Go's `strings` / `path/filepath` primitives, written out over `List Char`
so that every use reduces in the kernel. -/

/-- The characters of a string. -/
def chrs (s : String) : List Char := s.data

/-- A string from its characters. -/
def ofChrs (l : List Char) : String := ⟨l⟩

/-- Does `s` start with `pat`?  (`strings.HasPrefix pat` on lists.) -/
def startsWithL : List Char → List Char → Bool
  | [], _ => true
  | _ :: _, [] => false
  | p :: ps, c :: cs => p == c && startsWithL ps cs

/-- Does `s` end with `pat`? -/
def endsWithL (pat s : List Char) : Bool :=
  startsWithL pat.reverse s.reverse

/-- Does `s` contain `pat` as a substring?  (`strings.Contains`.) -/
def containsL (pat : List Char) : List Char → Bool
  | [] => pat.isEmpty
  | c :: cs => startsWithL pat (c :: cs) || containsL pat (cs)

/-- The remainder of `s` after the first occurrence of `pat`, if any. -/
def afterL (pat : List Char) : List Char → Option (List Char)
  | [] => none
  | c :: cs =>
    if startsWithL pat (c :: cs) then some ((c :: cs).drop pat.length)
    else afterL pat cs

/-- `strings.TrimPrefix`: drop a leading `pre` when present. -/
def trimLead (s pre : String) : String :=
  if startsWithL (chrs pre) (chrs s) then ofChrs ((chrs s).drop (chrs pre).length)
  else s

/-- `strings.TrimSuffix`: drop a trailing `suf` when present. -/
def trimTail (s suf : String) : String :=
  if endsWithL (chrs suf) (chrs s) then
    ofChrs ((chrs s).take ((chrs s).length - (chrs suf).length))
  else s

/-- ASCII lower-casing, `strings.ToLower` for the characters in play. -/
def lowerStr (s : String) : String := ofChrs ((chrs s).map Char.toLower)

/-- `filepath.Ext` on a basename: the suffix starting at the final dot,
or `[]` when there is no dot. -/
def extOfList : List Char → List Char
  | [] => []
  | c :: cs =>
    let r := extOfList cs
    if r.isEmpty then (if c == '.' then c :: cs else []) else r

/-- `filepath.Ext` of a basename. -/
def extOf (s : String) : String := ofChrs (extOfList (chrs s))

/-- `filepath.Base` for slash-separated paths: everything after the last
slash.  (The embedded paths never have trailing slashes.) -/
def baseName (s : String) : String :=
  ofChrs (((chrs s).reverse.takeWhile (fun c => !(c == '/'))).reverse)

/-! ### Data model (`pkg/models`) -/

/-- `models.DownloadFormat`. -/
inductive DownloadFormat
  | mp4
  | webm
deriving DecidableEq, Repr

/-- `DownloadFormat.String()`. -/
def DownloadFormat.str : DownloadFormat → String
  | .mp4 => "mp4"
  | .webm => "webm"

/-- `models.CacheEntry`: sizes are Go `int64`, times are ticks. -/
structure CacheEntry where
  id : String
  fileName : String
  size : Int
  lastAccess : Nat
  created : Nat
deriving DecidableEq, Repr

/-! ### Cache manager (`internal/cache/manager.go`) -/

/-- The in-memory state of `cache.Manager`: the cache directory path, the
id-keyed entry map (association list, unique ids) and the byte budget. -/
structure CacheState where
  cachePath : String
  entries : List CacheEntry
  maxSizeBytes : Int
deriving DecidableEq, Repr

/-- Total `size` over a list of entries (the sum `evictIfNeeded` computes). -/
def totalSize (l : List CacheEntry) : Int := (l.map (fun e => e.size)).sum

/-- Go map lookup `m.entries[id]`. -/
def findEntry (l : List CacheEntry) (id : String) : Option CacheEntry :=
  l.find? (fun e => e.id == id)

/-- Go map update `m.entries[id] = e`: replace in place or append. -/
def insertEntry : List CacheEntry → CacheEntry → List CacheEntry
  | [], e => [e]
  | x :: xs, e => if x.id == e.id then e :: xs else x :: insertEntry xs e

/-- Ascending comparison used to model `sort.Slice(..., LastAccess.Before)`;
ties (where Go's unstable sort is unspecified) are broken by id. -/
def lruLE (a b : CacheEntry) : Bool :=
  a.lastAccess < b.lastAccess || (a.lastAccess == b.lastAccess && a.id ≤ b.id)

/-- Ordered insertion for `sortLRU`. -/
def insertLRU (e : CacheEntry) : List CacheEntry → List CacheEntry
  | [] => [e]
  | x :: xs => if lruLE e x then e :: x :: xs else x :: insertLRU e xs

/-- Insertion-sort worker. -/
def sortLRUAux : List CacheEntry → List CacheEntry → List CacheEntry
  | [], acc => acc
  | e :: es, acc => sortLRUAux es (insertLRU e acc)

/-- The oldest-first ordering of the entries built by `evictIfNeeded`. -/
def sortLRU (l : List CacheEntry) : List CacheEntry := sortLRUAux l []

/-- The eviction loop of `evictIfNeeded`: walk the oldest-first list,
deleting entries while the running total exceeds the budget; the entries
at which the loop breaks survive. -/
def evictFrom : Int → Int → List CacheEntry → List CacheEntry
  | _, _, [] => []
  | cur, mx, e :: rest =>
    if cur ≤ mx then e :: rest else evictFrom (cur - e.size) mx rest

/-- `Manager.evictIfNeeded`: no-op when the budget is disabled
(`maxSizeBytes ≤ 0`) or the recomputed total is within budget; otherwise
evict oldest-first (file removal errors are ignored by the Go code). -/
def evictIfNeeded (s : CacheState) : CacheState :=
  if s.maxSizeBytes ≤ 0 then s
  else
    let cur := totalSize s.entries
    if cur ≤ s.maxSizeBytes then s
    else { s with entries := evictFrom cur s.maxSizeBytes (sortLRU s.entries) }

/-- Result of `Manager.AddEntry`. -/
inductive AddResult
  | ok
  | statFailed
deriving DecidableEq, Repr

/-- `Manager.AddEntry id filename`: `os.Stat` the file (`statRes`, giving
size and mtime); on failure return the error with the index untouched;
on success store the entry (`lastAccess = now`, `created = mtime`) and
run eviction. -/
def addEntry (s : CacheState) (id filename : String)
    (statRes : Option (Int × Nat)) (now : Nat) : CacheState × AddResult :=
  match statRes with
  | none => (s, .statFailed)
  | some (sz, mtime) =>
    let e : CacheEntry := ⟨id, filename, sz, now, mtime⟩
    (evictIfNeeded { s with entries := insertEntry s.entries e }, .ok)

/-- Outcome of one `os.Remove` call. -/
inductive RemoveResult
  | ok
  | notExist
  | fsError
deriving DecidableEq, Repr

/-- Result of `Manager.DeleteEntry`. -/
inductive DeleteResult
  | ok
  | notFound
  | fsError
deriving DecidableEq, Repr

/-- `Manager.DeleteEntry`: missing id is `ErrEntryNotFound`; a removal
error other than not-exist is surfaced with the index untouched;
otherwise (removed, or already absent) the entry is dropped. -/
def deleteEntry (s : CacheState) (id : String)
    (rm : String → RemoveResult) : CacheState × DeleteResult :=
  match findEntry s.entries id with
  | none => (s, .notFound)
  | some e =>
    match rm e.fileName with
    | .fsError => (s, .fsError)
    | _ => ({ s with entries := s.entries.filter (fun x => !(x.id == id)) }, .ok)

/-- `Manager.Clear`: removes every file ignoring `os.Remove` outcomes
(`rm` is consulted by the real code but its result discarded), empties
the index and always reports success. -/
def clear (s : CacheState) (rm : String → RemoveResult) : CacheState × Bool :=
  ({ s with entries := [] }, true)

/-- One directory-listing item as seen by `os.ReadDir` (with the stat
data `Scan` reads afterwards). -/
structure DirEntry where
  name : String
  isDir : Bool
  size : Int
  mtime : Nat
deriving DecidableEq, Repr

/-- One iteration of `Manager.Scan`'s loop: skip directories and files
whose lower-cased `filepath.Ext` is not `.mp4` / `.webm`; otherwise index
the file under the stem obtained by `strings.TrimSuffix name ext`. -/
def scanFold (acc : List CacheEntry) (f : DirEntry) : List CacheEntry :=
  if f.isDir then acc
  else
    let ext := lowerStr (extOf f.name)
    if ext == ".mp4" || ext == ".webm" then
      insertEntry acc ⟨trimTail f.name ext, f.name, f.size, f.mtime, f.mtime⟩
    else acc

/-- `Manager.Scan` over a directory listing (per-file stats are taken
from the listing), followed by eviction. -/
def scan (s : CacheState) (files : List DirEntry) : CacheState :=
  evictIfNeeded { s with entries := files.foldl scanFold s.entries }

/-- `Manager.UpdateLastAccess`: set `lastAccess = now` (the best-effort
`os.Chtimes` is ignored by the Go code). -/
def updateLastAccess (s : CacheState) (id : String) (now : Nat) :
    CacheState × Bool :=
  match findEntry s.entries id with
  | none => (s, false)
  | some e =>
    ({ s with entries := insertEntry s.entries { e with lastAccess := now } }, true)

/-- `Manager.GetFilePath`: the joined absolute path of a cached file. -/
def getFilePath (s : CacheState) (id : String) : Option String :=
  match findEntry s.entries id with
  | none => none
  | some e => some (s.cachePath ++ "/" ++ e.fileName)

/-! ### Download queue (`internal/downloader/downloader.go`) -/

/-- `downloader.DownloadStatus`. -/
inductive DownloadStatus
  | queued
  | downloading
  | completed
  | failed
deriving DecidableEq, Repr

/-- `downloader.DownloadRequest` (Go zero times are tick 0). -/
structure DownloadRequest where
  videoID : String
  videoURL : String
  format : DownloadFormat
  maxRes : Int
  maxLength : Int
  queuedAt : Nat
  startedAt : Nat
  finishedAt : Nat
  status : DownloadStatus
  error : Option String
deriving DecidableEq, Repr

/-- The lock-protected state of `downloader.Downloader`: the running flag,
the pending FIFO and the in-flight map. -/
structure DownloaderState where
  running : Bool
  queue : List DownloadRequest
  active : List (String × DownloadRequest)
deriving DecidableEq, Repr

/-- Result of `Downloader.Queue`. -/
inductive QueueResult
  | ok
  | errStopped
  | errAlreadyQueued
deriving DecidableEq, Repr

/-- `Downloader.Queue videoID videoURL format`: reject when stopped;
reject duplicates in `active` or `queue`; succeed as a no-op when the
cache already has the id; otherwise append a fresh `queued` request
(`maxRes` / `maxLength` come from the configuration snapshot). -/
def queueOp (d : DownloaderState) (c : CacheState) (videoID videoURL : String)
    (format : DownloadFormat) (maxRes maxLength : Int) (now : Nat) :
    DownloaderState × QueueResult :=
  if !d.running then (d, .errStopped)
  else if d.active.any (fun p => p.1 == videoID) then (d, .errAlreadyQueued)
  else if d.queue.any (fun r => r.videoID == videoID) then (d, .errAlreadyQueued)
  else if (findEntry c.entries videoID).isSome then (d, .ok)
  else
    ({ d with queue :=
        d.queue ++ [⟨videoID, videoURL, format, maxRes, maxLength, now, 0, 0, .queued, none⟩] },
     .ok)

/-- Outcome of `Downloader.executeDownload`. -/
inductive ExecOutcome
  | downloadFailed (output : String)
  | cacheAddFailed
  | ok
deriving DecidableEq, Repr

/-- The post-process part of `Downloader.executeDownload`: a non-zero
resolver exit is `ErrDownloadFailed` with the combined output; after a
zero exit the worker registers exactly the output-template basename
`<id>.<ext>` with the cache (`statRes` is the cache's `os.Stat` of that
file), failing when `AddEntry` fails.  The Go code never lists the
directory for alternative output names. -/
def executeDownload (c : CacheState) (id : String) (format : DownloadFormat)
    (exitZero : Bool) (output : String) (statRes : Option (Int × Nat))
    (now : Nat) : CacheState × ExecOutcome :=
  if !exitZero then (c, .downloadFailed output)
  else
    match addEntry c id (id ++ "." ++ format.str) statRes now with
    | (c', .ok) => (c', .ok)
    | (_, .statFailed) => (c, .cacheAddFailed)

/-! ### URL classification and the dispatcher (`internal/api/handlers.go`)

`net/url` parsing is modelled for plain `scheme://host[:port]/path?query`
URLs (no userinfo, IPv6 brackets or percent-escapes occur in the embedded
call sites): the host is the authority up to a colon, the path runs to
`?` or `#`, the query follows `?`. -/

/-- `url.Parse(u).Hostname()` for plain URLs; empty when `u` has no
scheme separator. -/
def hostOf (u : String) : String :=
  match afterL (chrs "://") (chrs u) with
  | none => ""
  | some rest =>
    let auth := rest.takeWhile (fun c => !(c == '/' || c == '?' || c == '#'))
    ofChrs (auth.takeWhile (fun c => !(c == ':')))

/-- `url.Parse(u).Path` for plain URLs. -/
def pathOf (u : String) : String :=
  match afterL (chrs "://") (chrs u) with
  | none => ""
  | some rest =>
    let afterAuth := rest.dropWhile (fun c => !(c == '/' || c == '?' || c == '#'))
    ofChrs (afterAuth.takeWhile (fun c => !(c == '?' || c == '#')))

/-- `url.Parse(u).RawQuery` for plain URLs. -/
def queryOf (u : String) : String :=
  match afterL (chrs "://") (chrs u) with
  | none => ""
  | some rest =>
    match rest.dropWhile (fun c => !(c == '?')) with
    | [] => ""
    | _ :: t => ofChrs (t.takeWhile (fun c => !(c == '#')))

/-- Split a raw query on `&`. -/
def splitOnAmp : List Char → List (List Char)
  | [] => [[]]
  | c :: cs =>
    let r := splitOnAmp cs
    if c == '&' then [] :: r
    else
      match r with
      | [] => [[c]]
      | h :: t => (c :: h) :: t

/-- `url.Query().Get key`: the value of the first `key=...` component
(percent-decoding is not modelled; the embedded inputs carry none). -/
def queryGet (q key : String) : String :=
  let pat := chrs key ++ ['=']
  match (splitOnAmp (chrs q)).find? (fun comp => startsWithL pat comp) with
  | some comp => ofChrs (comp.drop pat.length)
  | none => ""

/-- Result of `extractYouTubeVideoID`. -/
inductive ExtractResult
  | idFound (id : String)
  | notFound
deriving DecidableEq, Repr

/-- The host/path/query logic of `extractYouTubeVideoID`: `youtu.be`
takes the path with one leading slash trimmed; a host containing
`youtube.com` takes `v=` on `/watch`, else the whole remainder after
`/embed/` or `/v/`; anything else is `ErrVideoIDNotFound`. -/
def extractFromParts (host path query : String) : ExtractResult :=
  if host == "youtu.be" then
    let vid := trimLead path "/"
    if !(vid == "") then .idFound vid else .notFound
  else if containsL (chrs "youtube.com") (chrs host) then
    if path == "/watch" && !(queryGet query "v" == "") then
      .idFound (queryGet query "v")
    else if startsWithL (chrs "/embed/") (chrs path)
        && !(trimLead path "/embed/" == "") then
      .idFound (trimLead path "/embed/")
    else if startsWithL (chrs "/v/") (chrs path)
        && !(trimLead path "/v/" == "") then
      .idFound (trimLead path "/v/")
    else .notFound
  else .notFound

/-- `extractYouTubeVideoID` on a URL string. -/
def extractYouTubeVideoID (u : String) : ExtractResult :=
  extractFromParts (hostOf u) (pathOf u) (queryOf u)

/-- `isYouTubeURL`: empty URLs are rejected, then the hostname is tested
by *substring* containment of `youtube.com`, or equality with
`youtu.be`. -/
def isYouTubeURL (u : String) : Bool :=
  if u == "" then false
  else containsL (chrs "youtube.com") (chrs (hostOf u)) || hostOf u == "youtu.be"

/-- The response `handleGetVideo` chooses (together with which
side-effect path runs: `hit` also touches the entry, `miss` also
enqueues the id with the chosen format). -/
inductive GetVideoOutcome
  | badRequest
  | bypass
  | hit (body : String)
  | miss (id : String) (format : DownloadFormat)
deriving DecidableEq, Repr

/-- The pure request logic of `Server.handleGetVideo`: missing `url` is
`400`; `avpro` is false iff the literal `"false"`; non-YouTube URLs and
failed extractions get the empty `200` body; a cached id yields
`<webServerURL>/<basename of cached path>`; otherwise the id is queued
with `webm` when `avpro` else `mp4` and the body is empty. -/
def handleGetVideoResponse (s : CacheState) (webServerURL urlParam avproStr : String) :
    GetVideoOutcome :=
  if urlParam == "" then .badRequest
  else
    let avpro := !(avproStr == "false")
    if !isYouTubeURL urlParam then .bypass
    else
      match extractYouTubeVideoID urlParam with
      | .notFound => .bypass
      | .idFound vid =>
        match getFilePath s vid with
        | some p => .hit (webServerURL ++ "/" ++ baseName p)
        | none => .miss vid (if avpro then .webm else .mp4)

/-! ### Stub resolver (`cmd/ytdlp-stub/main.go`) -/

/-- The argv scan of `parseArgs`: note the loop `break`s at the first
`http`-prefixed argument, so later flags are never seen. -/
def parseArgsLoop : List String → Bool → String → Option String × Bool × String
  | [], av, src => (none, av, src)
  | a :: rest, av, src =>
    if containsL (chrs "[protocol^=http]") (chrs a) then parseArgsLoop rest false src
    else if a == "-J" then parseArgsLoop rest av "resonite"
    else if startsWithL (chrs "http") (chrs (lowerStr a)) then (some a, av, src)
    else parseArgsLoop rest av src

/-- `parseArgs`: defaults `avpro = true`, `source = "vrchat"`; no URL is
`ErrNoURL`. -/
def parseArgs (args : List String) : Option (String × Bool × String) :=
  match parseArgsLoop args true "vrchat" with
  | (none, _, _) => none
  | (some u, av, src) => some (u, av, src)

/-- The daemon's answer as the stub observes it. -/
inductive HTTPOutcome
  | transportError
  | response (status : Nat) (body : String)
deriving DecidableEq, Repr

/-- What one stub invocation leaves behind. -/
structure StubResult where
  exitCode : Nat
  stdout : String
  stderrHasError : Bool
deriving DecidableEq, Repr

/-- `run`: argument or transport or non-200 failures print an `ERROR:`
diagnostic on stderr and exit 1 with nothing on stdout; a 200 body is
printed with `fmt.Println`, which appends a newline, and the exit code
is 0. -/
def runStub (args : List String) (h : HTTPOutcome) : StubResult :=
  match parseArgs args with
  | none => ⟨1, "", true⟩
  | some _ =>
    match h with
    | .transportError => ⟨1, "", true⟩
    | .response st body =>
      if st == 200 then ⟨0, body ++ "\n", false⟩ else ⟨1, "", true⟩

/-! ### Spec-side definitions

These do not embed code: each follows the spec's words, to be compared
against the corresponding embedded function. -/

/-- Spec-side (§4.A): the primary-source host rule as the spec states
it — exactly `youtu.be`, exactly `youtube.com`, or a subdomain of
`youtube.com` (host suffix match). -/
def specIsPrimaryHost (host : String) : Bool :=
  host == "youtu.be" || host == "youtube.com"
    || endsWithL (chrs ".youtube.com") (chrs host)

/-- Spec-side (§4.A / §9): the identifier taken from an `/embed/` or
`/v/` remainder must stop at the next `/`. -/
def specTruncateAtSlash (rest : String) : String :=
  ofChrs ((chrs rest).takeWhile (fun c => !(c == '/')))

/-- Spec-side (§6): one character of the identifier alphabet
`[A-Za-z0-9_\-]`. -/
def isIDChar (c : Char) : Bool :=
  ('A' ≤ c && c ≤ 'Z') || ('a' ≤ c && c ≤ 'z') || ('0' ≤ c && c ≤ '9')
    || c == '_' || c == '-'

/-- Spec-side (§6): the cache-entry filename pattern
`^[A-Za-z0-9_\-]{1,64}\.(mp4|webm)$`. -/
def matchesCacheFilePattern (name : String) : Bool :=
  let l := chrs name
  if endsWithL (chrs ".mp4") l then
    let stem := l.take (l.length - 4)
    !stem.isEmpty && decide (stem.length ≤ 64) && stem.all isIDChar
  else if endsWithL (chrs ".webm") l then
    let stem := l.take (l.length - 5)
    !stem.isEmpty && decide (stem.length ≤ 64) && stem.all isIDChar
  else false

/-- Largest-size pick among candidate files. -/
def pickLargest (l : List DirEntry) : Option DirEntry :=
  l.foldl
    (fun acc f =>
      match acc with
      | none => some f
      | some g => if f.size > g.size then some f else some g)
    none

/-- Spec-side (§4.D): the output-locating priority the spec prescribes
after a zero resolver exit — exact `<id>.<ext>`, then the largest
`<id>.*.<ext>`, then any `<id>.*` with an allowed extension. -/
def specLocateOutput (files : List DirEntry) (id ext : String) : Option String :=
  let exact := id ++ "." ++ ext
  if files.any (fun f => !f.isDir && f.name == exact) then some exact
  else
    let mid := files.filter (fun f =>
      !f.isDir && startsWithL (chrs (id ++ ".")) (chrs f.name)
        && endsWithL (chrs ("." ++ ext)) (chrs f.name) && !(f.name == exact))
    match pickLargest mid with
    | some f => some f.name
    | none =>
      let anyExt := files.filter (fun f =>
        !f.isDir && startsWithL (chrs (id ++ ".")) (chrs f.name)
          && (lowerStr (extOf f.name) == ".mp4" || lowerStr (extOf f.name) == ".webm"))
      (anyExt.head?).map (fun f => f.name)

/-! ### Lemmas about the eviction machinery -/

theorem totalSize_nil : totalSize [] = 0 := rfl

theorem totalSize_cons (e : CacheEntry) (l : List CacheEntry) :
    totalSize (e :: l) = e.size + totalSize l := by
  simp [totalSize]

theorem totalSize_append (l₁ l₂ : List CacheEntry) :
    totalSize (l₁ ++ l₂) = totalSize l₁ + totalSize l₂ := by
  simp [totalSize]

theorem totalSize_insertLRU (e : CacheEntry) (l : List CacheEntry) :
    totalSize (insertLRU e l) = e.size + totalSize l := by
  induction l with
  | nil => simp [insertLRU, totalSize]
  | cons x xs ih =>
    by_cases h : lruLE e x = true
    · simp [insertLRU, h, totalSize]
    · rw [Bool.not_eq_true] at h
      simp only [insertLRU, h, Bool.false_eq_true, if_false, totalSize_cons, ih]
      ring

theorem totalSize_sortLRUAux (l acc : List CacheEntry) :
    totalSize (sortLRUAux l acc) = totalSize l + totalSize acc := by
  induction l generalizing acc with
  | nil => simp [sortLRUAux, totalSize_nil]
  | cons e es ih =>
    simp only [sortLRUAux, ih, totalSize_insertLRU, totalSize_cons]
    ring

theorem totalSize_sortLRU (l : List CacheEntry) :
    totalSize (sortLRU l) = totalSize l := by
  simp [sortLRU, totalSize_sortLRUAux, totalSize_nil]

theorem mem_insertLRU {x e : CacheEntry} {l : List CacheEntry}
    (h : x ∈ insertLRU e l) : x = e ∨ x ∈ l := by
  induction l with
  | nil => simpa [insertLRU] using h
  | cons y ys ih =>
    by_cases hc : lruLE e y = true
    · simp only [insertLRU, hc, if_pos] at h
      simpa [List.mem_cons] using h
    · rw [Bool.not_eq_true] at hc
      simp only [insertLRU, hc, Bool.false_eq_true, if_false] at h
      simp only [List.mem_cons] at h ⊢
      rcases h with h | h
      · exact Or.inr (Or.inl h)
      · rcases ih h with h' | h'
        · exact Or.inl h'
        · exact Or.inr (Or.inr h')

theorem mem_sortLRUAux {x : CacheEntry} {l acc : List CacheEntry}
    (h : x ∈ sortLRUAux l acc) : x ∈ l ∨ x ∈ acc := by
  induction l generalizing acc with
  | nil => exact Or.inr h
  | cons e es ih =>
    simp only [sortLRUAux] at h
    rcases ih h with h' | h'
    · exact Or.inl (List.mem_cons_of_mem _ h')
    · rcases mem_insertLRU h' with h'' | h''
      · exact Or.inl (by simp [h''])
      · exact Or.inr h''

theorem mem_sortLRU {x : CacheEntry} {l : List CacheEntry}
    (h : x ∈ sortLRU l) : x ∈ l := by
  rcases mem_sortLRUAux h with h' | h'
  · exact h'
  · simp at h'

theorem evictFrom_total_le {mx : Int} (hmx : 0 < mx) :
    ∀ (l : List CacheEntry) (cur : Int), cur = totalSize l →
      totalSize (evictFrom cur mx l) ≤ mx := by
  intro l
  induction l with
  | nil => intro cur _; simp [evictFrom, totalSize_nil]; omega
  | cons e rest ih =>
    intro cur hcur
    by_cases hc : cur ≤ mx
    · simpa [evictFrom, hc, ← hcur] using hc
    · rw [totalSize_cons] at hcur
      simp only [evictFrom, if_neg hc]
      exact ih (cur - e.size) (by omega)

theorem evictIfNeeded_total_le {s : CacheState} (hmax : 0 < s.maxSizeBytes) :
    totalSize (evictIfNeeded s).entries ≤ s.maxSizeBytes := by
  unfold evictIfNeeded
  by_cases h0 : s.maxSizeBytes ≤ 0
  · omega
  · simp only [if_neg h0]
    by_cases hc : totalSize s.entries ≤ s.maxSizeBytes
    · simpa [hc] using hc
    · simp only [if_neg hc]
      exact evictFrom_total_le hmax _ _ (totalSize_sortLRU s.entries).symm

theorem evictIfNeeded_maxSizeBytes (s : CacheState) :
    (evictIfNeeded s).maxSizeBytes = s.maxSizeBytes := by
  unfold evictIfNeeded
  by_cases h0 : s.maxSizeBytes ≤ 0
  · simp [h0]
  · by_cases hc : totalSize s.entries ≤ s.maxSizeBytes <;> simp [h0, hc]

theorem insertEntry_of_fresh {l : List CacheEntry} {e : CacheEntry}
    (h : ∀ x ∈ l, ¬ x.id = e.id) : insertEntry l e = l ++ [e] := by
  induction l with
  | nil => rfl
  | cons x xs ih =>
    have hx : (x.id == e.id) = false := by
      simpa using h x (List.mem_cons_self x xs)
    simp only [insertEntry, hx, Bool.false_eq_true, if_false, List.cons_append,
      List.cons.injEq, true_and]
    exact ih (fun y hy => h y (List.mem_cons_of_mem _ hy))

theorem insertLRU_of_dominant {e : CacheEntry} {l : List CacheEntry}
    (h : ∀ x ∈ l, lruLE e x = false) : insertLRU e l = l ++ [e] := by
  induction l with
  | nil => rfl
  | cons x xs ih =>
    have hx : lruLE e x = false := h x (List.mem_cons_self x xs)
    simp only [insertLRU, hx, Bool.false_eq_true, if_false, List.cons_append,
      List.cons.injEq, true_and]
    exact ih (fun y hy => h y (List.mem_cons_of_mem _ hy))

theorem sortLRUAux_append (l₁ l₂ acc : List CacheEntry) :
    sortLRUAux (l₁ ++ l₂) acc = sortLRUAux l₂ (sortLRUAux l₁ acc) := by
  induction l₁ generalizing acc with
  | nil => rfl
  | cons e es ih => simp [sortLRUAux, ih]

theorem sortLRU_append_dominant {l : List CacheEntry} {e : CacheEntry}
    (h : ∀ x ∈ l, lruLE e x = false) : sortLRU (l ++ [e]) = sortLRU l ++ [e] := by
  have h1 : sortLRU (l ++ [e]) = insertLRU e (sortLRU l) := by
    simp [sortLRU, sortLRUAux_append, sortLRUAux]
  rw [h1]
  exact insertLRU_of_dominant (fun x hx => h x (mem_sortLRU hx))

theorem totalSize_last_le {l : List CacheEntry} {e : CacheEntry}
    (h : ∀ x ∈ l, 0 ≤ x.size) : e.size ≤ totalSize (l ++ [e]) := by
  induction l with
  | nil => simp [totalSize]
  | cons x xs ih =>
    have hx : 0 ≤ x.size := h x (List.mem_cons_self x xs)
    have := ih (fun y hy => h y (List.mem_cons_of_mem _ hy))
    rw [List.cons_append, totalSize_cons]
    omega

theorem evictFrom_append_oversized {l : List CacheEntry} {e : CacheEntry} {mx : Int}
    (hnn : ∀ x ∈ l, 0 ≤ x.size) (hbig : mx < e.size) :
    evictFrom (totalSize (l ++ [e])) mx (l ++ [e]) = [] := by
  induction l with
  | nil =>
    have h1 : totalSize ([] ++ [e]) = e.size := by simp [totalSize]
    rw [h1]
    simp only [List.nil_append, evictFrom, if_neg (by omega : ¬ e.size ≤ mx)]
  | cons x xs ih =>
    have hx : 0 ≤ x.size := hnn x (List.mem_cons_self x xs)
    have hrest : ∀ y ∈ xs, 0 ≤ y.size := fun y hy => hnn y (List.mem_cons_of_mem _ hy)
    have hge : e.size ≤ totalSize (xs ++ [e]) := totalSize_last_le hrest
    have hcur : totalSize ((x :: xs) ++ [e]) = x.size + totalSize (xs ++ [e]) := by
      rw [List.cons_append, totalSize_cons]
    rw [hcur]
    simp only [List.cons_append, evictFrom,
      if_neg (by omega : ¬ x.size + totalSize (xs ++ [e]) ≤ mx)]
    have hsub : x.size + totalSize (xs ++ [e]) - x.size = totalSize (xs ++ [e]) := by ring
    rw [hsub]
    exact ih hrest

/-! ### Claim theorems -/

/-- C1: `Downloader.Queue` returns `ErrStopped` and leaves the state
unchanged when the downloader is not running; returns `ErrAlreadyQueued`
unchanged when the id is in the active map or in any pending queue entry;
returns success without appending when the cache already has the id; and
otherwise appends exactly one request with status `queued` and
`queuedAt = now` to the tail of the queue and returns success. -/
theorem queue_enqueue_spec (d : DownloaderState) (c : CacheState)
    (vid url : String) (fmt : DownloadFormat) (mr ml : Int) (now : Nat) :
    (d.running = false → queueOp d c vid url fmt mr ml now = (d, .errStopped)) ∧
    (d.running = true →
      (d.active.any (fun p => p.1 == vid) = true
        ∨ d.queue.any (fun r => r.videoID == vid) = true) →
      queueOp d c vid url fmt mr ml now = (d, .errAlreadyQueued)) ∧
    (d.running = true → d.active.any (fun p => p.1 == vid) = false →
      d.queue.any (fun r => r.videoID == vid) = false →
      (findEntry c.entries vid).isSome = true →
      queueOp d c vid url fmt mr ml now = (d, .ok)) ∧
    (d.running = true → d.active.any (fun p => p.1 == vid) = false →
      d.queue.any (fun r => r.videoID == vid) = false →
      findEntry c.entries vid = none →
      queueOp d c vid url fmt mr ml now =
        ({ d with queue :=
            d.queue ++ [⟨vid, url, fmt, mr, ml, now, 0, 0, .queued, none⟩] },
         .ok)) := by
  refine ⟨fun h => ?_, fun h hdup => ?_, fun h ha hq hc => ?_, fun h ha hq hc => ?_⟩
  · simp [queueOp, h]
  · rcases hdup with hd | hd
    · simp [queueOp, h, hd]
    · by_cases ha : d.active.any (fun p => p.1 == vid)
      · simp [queueOp, h, ha]
      · simp [queueOp, h, hd, ha]
  · simp [queueOp, h, ha, hq, hc]
  · simp [queueOp, h, ha, hq, hc]

/-- Witness for C1: the append branch at a concrete fresh enqueue. -/
theorem queue_enqueue_spec_witness :
    queueOp ⟨true, [], []⟩ ⟨"/c", [], 0⟩ "id1" "u" .mp4 1080 120 7 =
      (⟨true, [⟨"id1", "u", .mp4, 1080, 120, 7, 0, 0, .queued, none⟩], []⟩, .ok) :=
  (queue_enqueue_spec ⟨true, [], []⟩ ⟨"/c", [], 0⟩ "id1" "u" .mp4 1080 120 7).2.2.2
    rfl rfl rfl rfl

/-- C2: with a positive byte budget, the sum of entry sizes is at most
the budget immediately after either index-growing operation returns — a
successful `AddEntry`, or `Scan`. -/
theorem cache_budget_after_growth (s : CacheState) (id fn : String)
    (sz : Int) (mt now : Nat) (files : List DirEntry)
    (hmax : 0 < s.maxSizeBytes) :
    totalSize ((addEntry s id fn (some (sz, mt)) now).1.entries) ≤ s.maxSizeBytes ∧
    totalSize ((scan s files).entries) ≤ s.maxSizeBytes := by
  constructor
  · simp only [addEntry]
    exact evictIfNeeded_total_le (s := { s with entries := insertEntry s.entries ⟨id, fn, sz, now, mt⟩ }) hmax
  · simp only [scan]
    exact evictIfNeeded_total_le (s := { s with entries := files.foldl scanFold s.entries }) hmax

/-- Witness for C2: a third 1000-byte entry added under a 2000-byte
budget, and a scan over one file, both stay within budget. -/
theorem cache_budget_after_growth_witness :
    totalSize ((addEntry ⟨"/c", [⟨"a", "a.mp4", 1000, 1, 1⟩, ⟨"b", "b.mp4", 1000, 2, 1⟩], 2000⟩
        "c" "c.mp4" (some (1000, 3)) 3).1.entries) ≤ 2000 ∧
    totalSize ((scan ⟨"/c", [⟨"a", "a.mp4", 1000, 1, 1⟩, ⟨"b", "b.mp4", 1000, 2, 1⟩], 2000⟩
        [⟨"x.mp4", false, 500, 9⟩]).entries) ≤ 2000 :=
  cache_budget_after_growth _ "c" "c.mp4" 1000 3 3 [⟨"x.mp4", false, 500, 9⟩] (by decide)

/-- C3 counterexample: registering a single 3000-byte entry under a
2000-byte budget does NOT leave that entry in place over budget — the
eviction loop removes the just-added entry itself and the index ends
empty, contradicting the claim that the just-added entry is never
evicted. -/
theorem oversized_entry_evicted_cex :
    (addEntry ⟨"/c", [], 2000⟩ "big" "big.mp4" (some (3000, 3)) 5).1.entries = []
      ∧ ¬ (3000 : Int) ≤ 2000 := by
  constructor
  · rfl
  · decide

/-- C3 amended: an entry larger than the positive budget is admitted,
but the eviction that follows walks all entries oldest-first and does
evict the just-added entry too: when the new entry is strictly the most
recently accessed and its size alone exceeds the budget, the whole index
is emptied (so the total never remains above the budget). -/
theorem oversized_entry_eviction_amended (s : CacheState) (id fn : String)
    (sz : Int) (mt now : Nat)
    (hmax : 0 < s.maxSizeBytes) (hbig : s.maxSizeBytes < sz)
    (hfresh : ∀ x ∈ s.entries, ¬ x.id = id)
    (hdom : ∀ x ∈ s.entries, x.lastAccess < now)
    (hnn : ∀ x ∈ s.entries, 0 ≤ x.size) :
    (addEntry s id fn (some (sz, mt)) now).1.entries = [] := by
  have e : CacheEntry := ⟨id, fn, sz, now, mt⟩
  simp only [addEntry]
  have hins : insertEntry s.entries ⟨id, fn, sz, now, mt⟩ = s.entries ++ [⟨id, fn, sz, now, mt⟩] :=
    insertEntry_of_fresh (by intro x hx; exact hfresh x hx)
  rw [hins]
  set newE : CacheEntry := ⟨id, fn, sz, now, mt⟩ with hnewE
  have hdomB : ∀ x ∈ s.entries, lruLE newE x = false := by
    intro x hx
    have h1 : x.lastAccess < now := hdom x hx
    simp only [lruLE, hnewE, Bool.or_eq_false_iff, Bool.and_eq_false_iff]
    constructor
    · simp only [decide_eq_false_iff_not]
      omega
    · left
      simp only [beq_eq_false_iff_ne, ne_eq]
      omega
  have hcur_gt : ¬ totalSize (s.entries ++ [newE]) ≤ s.maxSizeBytes := by
    have := totalSize_last_le (e := newE) hnn
    simp only [hnewE] at this ⊢
    omega
  unfold evictIfNeeded
  simp only [if_neg (by omega : ¬ s.maxSizeBytes ≤ 0), if_neg hcur_gt]
  rw [sortLRU_append_dominant hdomB]
  have hsum : totalSize (s.entries ++ [newE]) = totalSize (sortLRU s.entries ++ [newE]) := by
    rw [totalSize_append, totalSize_append, totalSize_sortLRU]
  rw [hsum]
  exact evictFrom_append_oversized
    (fun x hx => hnn x (mem_sortLRU hx)) (by simpa [hnewE] using hbig)

/-- Witness for C3 amended: an older 100-byte entry plus a new
3000-byte entry under a 2000-byte budget leaves nothing cached. -/
theorem oversized_entry_eviction_amended_witness :
    (addEntry ⟨"/c", [⟨"old", "old.mp4", 100, 1, 1⟩], 2000⟩
      "big" "big.mp4" (some (3000, 3)) 5).1.entries = [] :=
  oversized_entry_eviction_amended ⟨"/c", [⟨"old", "old.mp4", 100, 1, 1⟩], 2000⟩
    "big" "big.mp4" 3000 3 5 (by decide) (by decide)
    (by decide) (by decide) (by decide)

/-! ### Lemmas about the string helpers -/

theorem startsWithL_append_self (p x : List Char) :
    startsWithL p (p ++ x) = true := by
  induction p with
  | nil => rfl
  | cons a ps ih => simp [startsWithL, ih]

theorem startsWithL_drop_eq {p s : List Char} (h : startsWithL p s = true) :
    s = p ++ s.drop p.length := by
  induction p generalizing s with
  | nil => simp
  | cons a ps ih =>
    cases s with
    | nil => simp [startsWithL] at h
    | cons c cs =>
      simp only [startsWithL, Bool.and_eq_true, beq_iff_eq] at h
      obtain ⟨rfl, h2⟩ := h
      simpa [List.length_cons] using ih h2

theorem containsL_append_left (p l s : List Char)
    (h : containsL p s = true) : containsL p (l ++ s) = true := by
  induction l with
  | nil => simpa using h
  | cons c cs ih => simp [containsL, ih]

theorem trimLead_append (pre rest : String) :
    trimLead (pre ++ rest) pre = rest := by
  have hd : chrs (pre ++ rest) = chrs pre ++ chrs rest := rfl
  simp only [trimLead, hd, startsWithL_append_self, if_pos, List.drop_left]
  rfl

/-- C4 counterexample: `isYouTubeURL` matches by substring containment,
so the host `notyoutube.com` — which the spec's suffix rule rejects — is
recognized as the primary source, and the dispatcher proceeds to the
miss/enqueue path instead of answering with the empty bypass body. -/
theorem classifier_substring_cex :
    isYouTubeURL "https://notyoutube.com/watch?v=abc" = true
      ∧ specIsPrimaryHost (hostOf "https://notyoutube.com/watch?v=abc") = false
      ∧ handleGetVideoResponse ⟨"/c", [], 0⟩ "http://localhost:9696"
          "https://notyoutube.com/watch?v=abc" "true" = .miss "abc" .webm := by
  refine ⟨by decide, by decide, by decide⟩

/-- C4 amended: the classifier recognizes a URL as the primary source
iff its hostname *contains* `youtube.com` as a substring or equals
`youtu.be` — a strict superset of the spec's suffix rule (which it does
include); every URL it does not recognize, and every recognized URL
whose identifier extraction fails, is answered `200` with the empty
`text/plain` body. -/
theorem classifier_bypass_amended :
    (∀ (s : CacheState) (w u a : String), ¬ u = "" → isYouTubeURL u = false →
      handleGetVideoResponse s w u a = .bypass)
    ∧ (∀ (s : CacheState) (w u a : String), isYouTubeURL u = true →
        extractYouTubeVideoID u = .notFound →
        handleGetVideoResponse s w u a = .bypass)
    ∧ (∀ h : String, specIsPrimaryHost h = true →
        (containsL (chrs "youtube.com") (chrs h) || h == "youtu.be") = true) := by
  refine ⟨fun s w u a hne hy => ?_, fun s w u a hy hx => ?_, fun h hp => ?_⟩
  · have hne' : (u == "") = false := beq_eq_false_iff_ne.mpr hne
    simp [handleGetVideoResponse, hne', hy]
  · have hne' : (u == "") = false := by
      by_cases hu : u = ""
      · rw [hu] at hy; simp [isYouTubeURL] at hy
      · exact beq_eq_false_iff_ne.mpr hu
    simp [handleGetVideoResponse, hne', hy, hx]
  · simp only [specIsPrimaryHost, Bool.or_eq_true, beq_iff_eq] at hp
    rcases hp with (rfl | rfl) | hsuf
    · simp
    · rw [Bool.or_eq_true]
      left
      decide
    · rw [Bool.or_eq_true]
      left
      have hrev : chrs h = ((chrs h).reverse.drop (chrs ".youtube.com").reverse.length).reverse
          ++ chrs ".youtube.com" := by
        have h1 := startsWithL_drop_eq (p := (chrs ".youtube.com").reverse)
          (s := (chrs h).reverse) hsuf
        have h2 := congrArg List.reverse h1
        simpa [List.reverse_append] using h2
      rw [hrev]
      exact containsL_append_left _ _ _ (by decide)

/-- Witness for C4 amended: a plain non-YouTube URL is bypassed, a
YouTube host with no extractable id is bypassed, and the spec's host
`m.youtube.com` is also accepted by the code's substring test. -/
theorem classifier_bypass_amended_witness :
    handleGetVideoResponse ⟨"/c", [], 0⟩ "http://localhost:9696"
        "https://example.com/video.mp4" "true" = .bypass
      ∧ handleGetVideoResponse ⟨"/c", [], 0⟩ "http://localhost:9696"
          "https://www.youtube.com/" "true" = .bypass
      ∧ (containsL (chrs "youtube.com") (chrs "m.youtube.com")
          || "m.youtube.com" == "youtu.be") = true :=
  ⟨classifier_bypass_amended.1 ⟨"/c", [], 0⟩ "http://localhost:9696"
      "https://example.com/video.mp4" "true" (by decide) (by decide),
   classifier_bypass_amended.2.1 ⟨"/c", [], 0⟩ "http://localhost:9696"
      "https://www.youtube.com/" "true" (by decide) (by decide),
   classifier_bypass_amended.2.2 "m.youtube.com" (by decide)⟩

set_option maxRecDepth 8192 in
/-- C5 counterexample: a file whose stem has 65 characters does not
match the spec's cache-name pattern, yet `Scan` indexes it (the Go code
checks only the extension, never the stem's alphabet or length). -/
theorem scan_long_stem_cex :
    matchesCacheFilePattern (ofChrs (List.replicate 65 'a') ++ ".mp4") = false
      ∧ (scan ⟨"/c", [], 0⟩
          [⟨ofChrs (List.replicate 65 'a') ++ ".mp4", false, 10, 3⟩]).entries ≠ [] := by
  refine ⟨by decide, by decide⟩

/-- C5 amended: `Scan` indexes a directory item iff it is not a
directory and its lower-cased `filepath.Ext` is `.mp4` or `.webm`; the
stem is unconstrained (any length, any characters, and upper-case
extensions such as `.MP4` are also accepted). -/
theorem scan_indexing_amended (f : DirEntry) (p : String) :
    ((scan ⟨p, [], 0⟩ [f]).entries ≠ []) ↔
      (f.isDir = false ∧ (lowerStr (extOf f.name) = ".mp4"
        ∨ lowerStr (extOf f.name) = ".webm")) := by
  have hev : ∀ (es : List CacheEntry), evictIfNeeded ⟨p, es, 0⟩ = ⟨p, es, 0⟩ := by
    intro es
    simp [evictIfNeeded]
  by_cases hd : f.isDir
  · simp [scan, scanFold, hd, hev]
  · by_cases hm : lowerStr (extOf f.name) = ".mp4"
    · simp [scan, scanFold, hd, hm, hev, insertEntry]
    · by_cases hw : lowerStr (extOf f.name) = ".webm"
      · simp [scan, scanFold, hd, hw, hev, insertEntry]
      · simp [scan, scanFold, hd, hm, hw, hev]

set_option maxRecDepth 8192 in
/-- Witness for C5 amended: a 64-character stem (the spec's maximum) is
indexed by `Scan`. -/
theorem scan_indexing_amended_witness :
    (scan ⟨"/c", [], 0⟩
      [⟨ofChrs (List.replicate 64 'b') ++ ".mp4", false, 7, 1⟩]).entries ≠ [] :=
  (scan_indexing_amended ⟨ofChrs (List.replicate 64 'b') ++ ".mp4", false, 7, 1⟩ "/c").mpr
    ⟨rfl, Or.inl (by decide)⟩

/-- C6 counterexample: the resolver exits zero having produced only
`abc.f137.mp4`; the spec's locating procedure finds that file, but
`executeDownload` never lists the directory — it registers exactly
`abc.mp4`, whose stat fails, and the download fails with a cache-add
error (there is no `ErrResolverProducedNoFile` in the code). -/
theorem resolver_output_locating_cex :
    executeDownload ⟨"/c", [], 0⟩ "abc" .mp4 true "" none 5
        = (⟨"/c", [], 0⟩, .cacheAddFailed)
      ∧ specLocateOutput [⟨"abc.f137.mp4", false, 100, 0⟩] "abc" "mp4"
        = some "abc.f137.mp4" := by
  refine ⟨rfl, by decide⟩

/-- C6 amended: after the resolver exits, the worker never searches the
cache directory: a non-zero exit is `ErrDownloadFailed` carrying the
combined output; a zero exit always registers exactly `<id>.<ext>` with
the cache, succeeding when its stat succeeds and failing with a
cache-add error when the exact file is absent. -/
theorem resolver_output_amended (c : CacheState) (id : String)
    (fmt : DownloadFormat) (exitZero : Bool) (output : String)
    (st : Option (Int × Nat)) (now : Nat) :
    (exitZero = false →
      executeDownload c id fmt exitZero output st now = (c, .downloadFailed output)) ∧
    (exitZero = true → st = none →
      executeDownload c id fmt exitZero output st now = (c, .cacheAddFailed)) ∧
    (∀ (sz : Int) (mt : Nat), exitZero = true → st = some (sz, mt) →
      executeDownload c id fmt exitZero output st now =
        ((addEntry c id (id ++ "." ++ fmt.str) st now).1, .ok)) := by
  refine ⟨fun h => ?_, fun h hst => ?_, fun sz mt h hst => ?_⟩
  · simp [executeDownload, h]
  · subst hst
    simp [executeDownload, h, addEntry]
  · subst hst
    simp [executeDownload, h, addEntry]

/-- Witness for C6 amended: a zero exit with `abc.mp4` present
registers that exact file. -/
theorem resolver_output_amended_witness :
    executeDownload ⟨"/c", [], 0⟩ "abc" .mp4 true "" (some (100, 2)) 5 =
      ((addEntry ⟨"/c", [], 0⟩ "abc" ("abc" ++ "." ++ DownloadFormat.str .mp4)
          (some (100, 2)) 5).1, .ok) :=
  (resolver_output_amended ⟨"/c", [], 0⟩ "abc" .mp4 true "" (some (100, 2)) 5).2.2
    100 2 rfl rfl

/-- C7 counterexample: for the multi-segment embed URL
`https://www.youtube.com/embed/abc/extra` the extractor returns the
whole remainder `abc/extra`, not the spec's identifier `abc` truncated
at the next slash. -/
theorem embed_id_truncation_cex :
    extractYouTubeVideoID "https://www.youtube.com/embed/abc/extra"
        = .idFound "abc/extra"
      ∧ specTruncateAtSlash "abc/extra" = "abc"
      ∧ ¬ ("abc/extra" : String) = "abc" := by
  refine ⟨by decide, by decide, by decide⟩

/-- C7 amended: on every canonical host (any host the extractor's
canonical branch accepts: not `youtu.be`, hostname containing
`youtube.com`), a path starting with `/embed/` or with `/v/` yields the
*entire* remainder of the path after that prefix — further `/` segments
included — whenever the remainder is non-empty. -/
theorem embed_id_amended (host rest q : String)
    (hhost : (host == "youtu.be") = false)
    (hyt : containsL (chrs "youtube.com") (chrs host) = true)
    (hne : ¬ rest = "") :
    extractFromParts host ("/embed/" ++ rest) q = .idFound rest
      ∧ extractFromParts host ("/v/" ++ rest) q = .idFound rest := by
  have hne' : (rest == "") = false := beq_eq_false_iff_ne.mpr hne
  constructor
  · have hw : (("/embed/" ++ rest) == "/watch") = false := by
      rw [beq_eq_false_iff_ne]
      intro hEq
      have hdata := congrArg String.data hEq
      have hv : ("/embed/" ++ rest).data
          = '/' :: 'e' :: 'm' :: 'b' :: 'e' :: 'd' :: '/' :: rest.data := rfl
      have hwd : ("/watch" : String).data = ['/', 'w', 'a', 't', 'c', 'h'] := rfl
      rw [hv, hwd] at hdata
      injection hdata with g1 g2
      injection g2 with g3 g4
      exact absurd g3 (by decide)
    have hpre : startsWithL (chrs "/embed/") (chrs ("/embed/" ++ rest)) = true := by
      have hch : chrs ("/embed/" ++ rest) = chrs "/embed/" ++ chrs rest := rfl
      rw [hch]
      exact startsWithL_append_self _ _
    have htrim : trimLead ("/embed/" ++ rest) "/embed/" = rest := trimLead_append _ _
    simp [extractFromParts, hhost, hyt, hw, hpre, htrim, hne']
  · have hw : (("/v/" ++ rest) == "/watch") = false := by
      rw [beq_eq_false_iff_ne]
      intro hEq
      have hdata := congrArg String.data hEq
      have hv : ("/v/" ++ rest).data = '/' :: 'v' :: '/' :: rest.data := rfl
      have hwd : ("/watch" : String).data = ['/', 'w', 'a', 't', 'c', 'h'] := rfl
      rw [hv, hwd] at hdata
      injection hdata with g1 g2
      injection g2 with g3 g4
      exact absurd g3 (by decide)
    have hemb : startsWithL (chrs "/embed/") (chrs ("/v/" ++ rest)) = false := rfl
    have hpre : startsWithL (chrs "/v/") (chrs ("/v/" ++ rest)) = true := by
      have hch : chrs ("/v/" ++ rest) = chrs "/v/" ++ chrs rest := rfl
      rw [hch]
      exact startsWithL_append_self _ _
    have htrim : trimLead ("/v/" ++ rest) "/v/" = rest := trimLead_append _ _
    simp [extractFromParts, hhost, hyt, hw, hemb, hpre, htrim, hne']

/-- C8 counterexample: on a 200 response with an empty body the stub's
`fmt.Println` still prints a newline, so stdout is `"\n"`, not the empty
body — contradicting the no-trailing-newline contract. -/
theorem stub_trailing_newline_cex :
    runStub ["https://x"] (.response 200 "") = ⟨0, "\n", false⟩
      ∧ ¬ ("\n" : String) = "" := by
  refine ⟨rfl, by decide⟩

/-- C8 amended: on HTTP 200 the stub prints the body *followed by a
newline* (`fmt.Println`) — including a lone newline for an empty body —
and exits 0; with no URL among the arguments, on a transport error, or
on a non-200 status it writes an `ERROR:` diagnostic to stderr, prints
nothing to stdout and exits 1. -/
theorem stub_output_amended (args : List String) (h : HTTPOutcome) :
    (∀ body : String, parseArgs args ≠ none → h = .response 200 body →
      runStub args h = ⟨0, body ++ "\n", false⟩)
    ∧ (parseArgs args = none → runStub args h = ⟨1, "", true⟩)
    ∧ (parseArgs args ≠ none → h = .transportError → runStub args h = ⟨1, "", true⟩)
    ∧ (∀ (st : Nat) (body : String), parseArgs args ≠ none → h = .response st body →
        ¬ st = 200 → runStub args h = ⟨1, "", true⟩) := by
  refine ⟨fun body hp hh => ?_, fun hp => ?_, fun hp hh => ?_, fun st body hp hh hst => ?_⟩
  · cases hpa : parseArgs args with
    | none => exact absurd hpa hp
    | some v => simp [runStub, hpa, hh]
  · simp [runStub, hp]
  · cases hpa : parseArgs args with
    | none => exact absurd hpa hp
    | some v => simp [runStub, hpa, hh]
  · cases hpa : parseArgs args with
    | none => exact absurd hpa hp
    | some v => simp [runStub, hpa, hh, hst]

/-- Witness for C8 amended: a successful call prints the body plus a
newline and exits 0; a call without a URL exits 1 with stderr set. -/
theorem stub_output_amended_witness :
    runStub ["https://example.com/v.mp4"] (.response 200 "http://localhost:9696/v.mp4")
        = ⟨0, "http://localhost:9696/v.mp4" ++ "\n", false⟩
      ∧ runStub ["-f", "fmt"] (.response 200 "b") = ⟨1, "", true⟩ :=
  ⟨(stub_output_amended ["https://example.com/v.mp4"]
        (.response 200 "http://localhost:9696/v.mp4")).1
      "http://localhost:9696/v.mp4" (by decide) rfl,
   (stub_output_amended ["-f", "fmt"] (.response 200 "b")).2.1 (by decide)⟩

/-- C9 counterexample: `Clear` with a failing file removal still reports
success and still empties the in-memory index, contradicting the claim
that filesystem failures are reported and leave the index unchanged. -/
theorem clear_ignores_fs_errors_cex :
    clear ⟨"/c", [⟨"a", "a.mp4", 5, 0, 0⟩], 0⟩ (fun _ => .fsError)
        = (⟨"/c", [], 0⟩, true)
      ∧ (⟨"/c", [⟨"a", "a.mp4", 5, 0, 0⟩], 0⟩ : CacheState).entries ≠ [] := by
  refine ⟨rfl, by decide⟩

/-- C9 amended: `AddEntry` and `DeleteEntry` report filesystem failures
and leave the index unchanged, with an already-absent file treated as
success on delete; `Clear`, however, ignores filesystem failures —
it always empties the index and reports success. -/
theorem cache_mutation_failure_amended (s : CacheState) (id : String)
    (e : CacheEntry) (rm : String → RemoveResult) (fn : String) (now : Nat) :
    (addEntry s id fn none now = (s, .statFailed))
    ∧ (findEntry s.entries id = some e → rm e.fileName = .fsError →
        deleteEntry s id rm = (s, .fsError))
    ∧ (findEntry s.entries id = some e → rm e.fileName ≠ .fsError →
        deleteEntry s id rm =
          ({ s with entries := s.entries.filter (fun x => !(x.id == id)) }, .ok))
    ∧ (clear s rm = ({ s with entries := [] }, true)) := by
  refine ⟨rfl, fun hf hrm => ?_, fun hf hrm => ?_, rfl⟩
  · simp [deleteEntry, hf, hrm]
  · cases hr : rm e.fileName with
    | fsError => exact absurd hr hrm
    | ok => simp [deleteEntry, hf, hr]
    | notExist => simp [deleteEntry, hf, hr]

/-- Witness for C9 amended: deleting a present entry whose file is
already gone (`notExist`) succeeds and drops the entry; a failing
removal surfaces the error unchanged. -/
theorem cache_mutation_failure_amended_witness :
    deleteEntry ⟨"/c", [⟨"a", "a.mp4", 5, 0, 0⟩], 0⟩ "a" (fun _ => .notExist)
        = (⟨"/c", [], 0⟩, .ok)
      ∧ deleteEntry ⟨"/c", [⟨"a", "a.mp4", 5, 0, 0⟩], 0⟩ "a" (fun _ => .fsError)
        = (⟨"/c", [⟨"a", "a.mp4", 5, 0, 0⟩], 0⟩, .fsError) :=
  ⟨(cache_mutation_failure_amended ⟨"/c", [⟨"a", "a.mp4", 5, 0, 0⟩], 0⟩ "a"
      ⟨"a", "a.mp4", 5, 0, 0⟩ (fun _ => .notExist) "f" 0).2.2.1 (by decide) (by decide),
   (cache_mutation_failure_amended ⟨"/c", [⟨"a", "a.mp4", 5, 0, 0⟩], 0⟩ "a"
      ⟨"a", "a.mp4", 5, 0, 0⟩ (fun _ => .fsError) "f" 0).2.1 (by decide) (by decide)⟩

/-- C10: on a cache hit the `GET /api/getvideo` body is determined
solely by the stored entry's file name — it equals
`webServerURL ++ "/" ++ basename(cachePath ++ "/" ++ fileName)` for
*every* value of the `avpro` parameter, so `avpro=true` and
`avpro=false` return identical bodies even when the stored extension
differs from the requested format. -/
theorem cache_hit_ignores_avpro (s : CacheState) (w u a₁ a₂ vid : String)
    (e : CacheEntry)
    (hurl : isYouTubeURL u = true)
    (hex : extractYouTubeVideoID u = .idFound vid)
    (hent : findEntry s.entries vid = some e) :
    handleGetVideoResponse s w u a₁
        = .hit (w ++ "/" ++ baseName (s.cachePath ++ "/" ++ e.fileName))
      ∧ handleGetVideoResponse s w u a₁ = handleGetVideoResponse s w u a₂ := by
  have hne : (u == "") = false := by
    by_cases hu : u = ""
    · rw [hu] at hurl
      simp [isYouTubeURL] at hurl
    · exact beq_eq_false_iff_ne.mpr hu
  have hmain : ∀ a : String, handleGetVideoResponse s w u a
      = .hit (w ++ "/" ++ baseName (s.cachePath ++ "/" ++ e.fileName)) := by
    intro a
    simp [handleGetVideoResponse, hne, hurl, hex, getFilePath, hent]
  exact ⟨hmain a₁, (hmain a₁).trans (hmain a₂).symm⟩

/-- Witness for C10: the S1-style request with a cached `.webm` file
gives the same body for `avpro=false` and `avpro=true`. -/
theorem cache_hit_ignores_avpro_witness :
    handleGetVideoResponse
        ⟨"/cache", [⟨"dQw4w9WgXcQ", "dQw4w9WgXcQ.webm", 12, 0, 0⟩], 0⟩
        "http://localhost:9696" "https://www.youtube.com/watch?v=dQw4w9WgXcQ" "false"
      = .hit ("http://localhost:9696" ++ "/"
          ++ baseName ("/cache" ++ "/" ++ "dQw4w9WgXcQ.webm"))
      ∧ handleGetVideoResponse
          ⟨"/cache", [⟨"dQw4w9WgXcQ", "dQw4w9WgXcQ.webm", 12, 0, 0⟩], 0⟩
          "http://localhost:9696" "https://www.youtube.com/watch?v=dQw4w9WgXcQ" "false"
        = handleGetVideoResponse
            ⟨"/cache", [⟨"dQw4w9WgXcQ", "dQw4w9WgXcQ.webm", 12, 0, 0⟩], 0⟩
            "http://localhost:9696" "https://www.youtube.com/watch?v=dQw4w9WgXcQ" "true" :=
  cache_hit_ignores_avpro
    ⟨"/cache", [⟨"dQw4w9WgXcQ", "dQw4w9WgXcQ.webm", 12, 0, 0⟩], 0⟩
    "http://localhost:9696" "https://www.youtube.com/watch?v=dQw4w9WgXcQ"
    "false" "true" "dQw4w9WgXcQ" ⟨"dQw4w9WgXcQ", "dQw4w9WgXcQ.webm", 12, 0, 0⟩
    (by decide) (by decide) (by decide)

/-- Witness for C7 amended: on the subdomain host `m.youtube.com`, both
the `/embed/` and the `/v/` prefix return the remainder `abc/extra`
whole. -/
theorem embed_id_amended_witness :
    extractFromParts "m.youtube.com" ("/embed/" ++ "abc/extra") ""
        = .idFound "abc/extra"
      ∧ extractFromParts "m.youtube.com" ("/v/" ++ "abc/extra") ""
        = .idFound "abc/extra" :=
  embed_id_amended "m.youtube.com" "abc/extra" "" (by decide) (by decide) (by decide)
